import Mathlib

/-!
Verification of the historical indexing store of `standardweb3/ponder`
(spec sections 3 and 4: Row Cache, Conflict Resolver, Bulk Loader flush,
Reorg Recovery).  The store implementation itself is not present under
`src/` — only its tests (`packages/core/src/drizzle/runtime.test.ts`),
ORM type declarations (`packages/core/src/drizzle/insert.ts`) and the
documentation (`docs/pages/docs/indexing/write-to-the-database.mdx`) are —
so the operations below are modelled from the spec, with the canonical
value forms fixed by the expectations of `runtime.test.ts`.
-/

deriving instance DecidableEq for Except

namespace PonderStore

mutual
/-- Modelled from the spec (section 9, Dynamic schema typing): a JSON blob
value, with structural equality. -/
inductive Json where
| jnum : Int → Json
| jstr : String → Json
| jbool : Bool → Json
| jnull : Json
| jarr : JsonList → Json
| jobj : JsonObj → Json
deriving DecidableEq

/-- A list of JSON values (spelled out so equality derivation succeeds). -/
inductive JsonList where
| nil : JsonList
| cons : Json → JsonList → JsonList
deriving DecidableEq

/-- A JSON object: ordered fields mapping names to JSON values. -/
inductive JsonObj where
| nil : JsonObj
| cons : String → Json → JsonObj → JsonObj
deriving DecidableEq
end

mutual
/-- Modelled from the spec (section 9): the closed set of column value
variants — string, integer, big-integer, boolean, hex byte-sequence,
JSON blob, enumerated string, list. -/
inductive Value where
| vStr : String → Value
| vInt : Int → Value
| vBigInt : Int → Value
| vBool : Bool → Value
| vHex : String → Value
| vJson : Json → Value
| vEnum : String → Value
| vList : ValueList → Value
deriving DecidableEq

/-- A list of column values (spelled out so equality derivation succeeds). -/
inductive ValueList where
| nil : ValueList
| cons : Value → ValueList → ValueList
deriving DecidableEq
end

/-- Injects a list of strings into a `ValueList` of string values. -/
def strVL : List String → ValueList
| [] => .nil
| s :: t => .cons (.vStr s) (strVL t)

/-- Modelled from the spec (section 9): the closed set of column kinds. -/
inductive ColumnKind where
| kString : ColumnKind
| kInt : ColumnKind
| kBigInt : ColumnKind
| kFloat : ColumnKind
| kBoolean : ColumnKind
| kBytes : ColumnKind
| kHex : ColumnKind
| kJson : ColumnKind
| kEnum : List String → ColumnKind
| kList : ColumnKind → ColumnKind
deriving DecidableEq

/-- Modelled from the spec (section 3, Table Schema): a column definition —
name, semantic kind, nullability, optional default value. -/
structure Column where
  name : String
  kind : ColumnKind
  nullable : Bool
  dflt : Option Value
deriving DecidableEq

/-- Modelled from the spec (section 3, Table Schema): name, ordered column
definitions, ordered primary-key column names. -/
structure TableSchema where
  name : String
  pk : List String
  columns : List Column
deriving DecidableEq

/-- A row: ordered mapping from column name to value (`none` = SQL NULL). -/
abbrev Row := List (String × Option Value)

/-- An update patch: column name to new value (`none` = set to NULL). -/
abbrev Patch := List (String × Option Value)

/-- A row identity: (table name, primary-key tuple), spec section 3. -/
abbrev TableKey := String × List Value

/-- Modelled from the spec (section 7): the synchronous error kinds of the
Row Cache and Conflict Resolver. -/
inductive StoreError where
| uniqueConstraintViolation : String → StoreError
| notNullViolation : String → String → StoreError
| rowNotFoundError : StoreError
| invalidKeyError : StoreError
deriving DecidableEq

/-- Association-list lookup by key (first match wins). -/
def alookup {α β : Type} [DecidableEq α] : List (α × β) → α → Option β
| [], _ => none
| (k, v) :: t, a => if k = a then some v else alookup t a

/-- Association-list write: replace the first binding of the key, or
append a fresh binding. -/
def aset {α β : Type} [DecidableEq α] : List (α × β) → α → β → List (α × β)
| [], a, b => [(a, b)]
| (k, v) :: t, a, b => if k = a then (a, b) :: t else (k, v) :: aset t a b

/-- Association-list removal of every binding of the key. -/
def aremove {α β : Type} [DecidableEq α] : List (α × β) → α → List (α × β)
| [], _ => []
| (k, v) :: t, a => if k = a then aremove t a else (k, v) :: aremove t a

/-- The hex digits of a hex literal, without the leading 0x. -/
def hexDigits (s : String) : List Char :=
  match s.data with
  | '0' :: 'x' :: t => t
  | l => l

/-- Modelled from the spec (section 9, serialization rules for the hex
byte-sequence kind); the canonical form — lowercased digits zero-padded to
even length behind a 0x prefix — is fixed by the expectations of
`runtime.test.ts` (select hex: writing 0x1 reads back 0x01). -/
def normalizeHex (s : String) : String :=
  let ds := (hexDigits s).map Char.toLower
  ⟨'0' :: 'x' :: (if ds.length % 2 = 1 then '0' :: ds else ds)⟩

mutual
/-- Modelled from the spec (section 9): per-kind canonical serialization
applied when a value enters the pending state; the identity on every kind
except hex byte-sequences, which are normalized. -/
def encodeValue : Value → Value
| .vHex s => .vHex (normalizeHex s)
| .vList l => .vList (encodeValueList l)
| .vStr s => .vStr s
| .vInt i => .vInt i
| .vBigInt i => .vBigInt i
| .vBool b => .vBool b
| .vJson j => .vJson j
| .vEnum e => .vEnum e

/-- Canonical serialization mapped over a list of values. -/
def encodeValueList : ValueList → ValueList
| .nil => .nil
| .cons v t => .cons (encodeValue v) (encodeValueList t)
end

/-- Modelled from the spec (section 3, Row): the pending-operation kind a
cached row is tagged with. -/
inductive PendingOp where
| create : Row → PendingOp
| update : Row → PendingOp
| delete : PendingOp
deriving DecidableEq

/-- The pending history of one identity: (block, coalesced pending
operation as of that block), newest first.  The head is the single current
pending operation (spec section 3 uniqueness invariant); older snapshots
are the per-row provenance Reorg Recovery needs (spec section 4.5). -/
abbrev PendingHist := List (Nat × PendingOp)

/-- Modelled from the spec (sections 2 and 3): the store — a durable
baseline plus the Row Cache of pending deltas since the last flush. -/
structure Store where
  durable : List (TableKey × Row)
  pending : List (TableKey × PendingHist)
deriving DecidableEq

/-- The store with no durable rows and an empty cache. -/
def emptyStore : Store := { durable := [], pending := [] }

/-- The current (coalesced) pending operation recorded by a history. -/
def histOp (h : PendingHist) : Option PendingOp :=
  h.head?.map (fun x => x.2)

/-- The current pending operation of an identity, if any. -/
def pendingOpAt (s : Store) (tk : TableKey) : Option PendingOp :=
  match alookup s.pending tk with
  | some h => histOp h
  | none => none

/-- Modelled from the spec (sections 4.1 and 9): the materialized row of an
identity — the pending cache state overlaid on the durable baseline (the
two-layer read-through lookup), or `none` when absent or pending-deleted. -/
def materialize (s : Store) (tk : TableKey) : Option Row :=
  match pendingOpAt s tk with
  | some (.create r) => some r
  | some (.update r) => some r
  | some .delete => none
  | none => alookup s.durable tk

/-- Pushes a new coalesced pending operation at a block onto a history,
replacing the head snapshot when it is at the same block. -/
def pushHist (blk : Nat) (op : PendingOp) : PendingHist → PendingHist
| [] => [(blk, op)]
| (b, o) :: t => if b = blk then (blk, op) :: t else (blk, op) :: (b, o) :: t

/-- Records a new coalesced pending operation for an identity in the cache,
keeping at most one cache entry per identity (spec section 3). -/
def pushPending (p : List (TableKey × PendingHist)) (tk : TableKey)
    (blk : Nat) (op : PendingOp) : List (TableKey × PendingHist) :=
  match alookup p tk with
  | some h => aset p tk (pushHist blk op h)
  | none => (tk, [(blk, op)]) :: p

/-- Modelled from the spec (section 4.2): conflict handling attached to a
create — none (fail on conflict), `onConflictDoNothing`, or
`onConflictDoUpdate` whose function form receives the existing
materialized row and returns the patch. -/
inductive ConflictPolicy where
| raiseError : ConflictPolicy
| doNothing : ConflictPolicy
| doUpdate : (Row → Patch) → ConflictPolicy

/-- Resolves the stored value of one column of a freshly created row:
primary-key columns take the key value, other columns take the supplied
datum (canonicalized), else the schema default, else NULL when nullable,
else `NotNullViolation` (spec sections 4.1 and 4.2). -/
def colValue (tname : String) (pkAssoc : List (String × Value))
    (data : List (String × Value)) (c : Column) :
    Except StoreError (Option Value) :=
  match alookup pkAssoc c.name with
  | some kv => .ok (some kv)
  | none =>
    match alookup data c.name with
    | some v => .ok (some (encodeValue v))
    | none =>
      match c.dflt with
      | some d => .ok (some d)
      | none =>
        if c.nullable then .ok none
        else .error (.notNullViolation tname c.name)

/-- Builds the complete stored row of a create, column by column in schema
order; not-null enforcement runs here, before the row enters the pending
state (spec section 4.2). -/
def buildCols (tname : String) (pkAssoc : List (String × Value))
    (data : List (String × Value)) : List Column → Except StoreError Row
| [] => .ok []
| c :: rest =>
  match colValue tname pkAssoc data c with
  | .error e => .error e
  | .ok v =>
    match buildCols tname pkAssoc data rest with
    | .error e => .error e
    | .ok r => .ok ((c.name, v) :: r)

/-- Merges an update patch over a materialized row: patched columns take
the (canonicalized) patch value, the rest keep their current value.  The
defined merge function of the two-layer model (spec section 9). -/
def mergeRow (cur : Row) (p : Patch) : Row :=
  cur.map (fun x =>
    match alookup p x.1 with
    | some ov => (x.1, ov.map encodeValue)
    | none => x)

/-- Checks every non-nullable column of a row holds a value; the first gap
is a `NotNullViolation` naming the table and column (spec section 4.2). -/
def validateRow (tname : String) : List Column → Row → Except StoreError Unit
| [], _ => .ok ()
| c :: rest, r =>
  if c.nullable then validateRow tname rest r
  else
    match alookup r c.name with
    | some (some _) => validateRow tname rest r
    | _ => .error (.notNullViolation tname c.name)

/-- The store with one new coalesced pending operation recorded for an
identity. -/
def pushStore (s : Store) (tk : TableKey) (blk : Nat) (op : PendingOp) : Store :=
  { s with pending := pushPending s.pending tk blk op }

/-- Coalesces an update with the current pending operation of its identity:
create-then-update merges into a single pending create with the updated
fields, anything else becomes a pending update (spec section 3). -/
def coalesceUpdate (prev : Option PendingOp) (merged : Row) : PendingOp :=
  match prev with
  | some (.create _) => .create merged
  | _ => .update merged

/-- Modelled from the spec (sections 4.1 and 4.2): the shared update path —
materializes the current row (read-through), fails with `RowNotFoundError`
when absent, merges the patch, enforces not-null, and coalesces with any
pending create (create-then-update stays a pending create). -/
def applyUpdate (ts : TableSchema) (blk : Nat) (tk : TableKey) (p : Patch)
    (s : Store) : Except StoreError (Row × Store) :=
  match materialize s tk with
  | none => .error .rowNotFoundError
  | some cur =>
    let merged := mergeRow cur p
    match validateRow ts.name ts.columns merged with
    | .error e => .error e
    | .ok _ =>
      .ok (merged, pushStore s tk blk (coalesceUpdate (pendingOpAt s tk) merged))

/-- Modelled from the spec (sections 4.1 and 4.2): `create(table, key,
data)` at a block — validates the key arity, fails with
`UniqueConstraintViolation` when a non-deleted row is materialized at the
key (cache or durable) and no conflict handling is attached, converts to a
no-op under `onConflictDoNothing`, applies the computed patch as an update
under `onConflictDoUpdate`, and otherwise builds and caches the pending
created row. -/
def createOp (ts : TableSchema) (blk : Nat) (key : List Value)
    (data : List (String × Value)) (pol : ConflictPolicy) (s : Store) :
    Except StoreError (Row × Store) :=
  if key.length = ts.pk.length then
    let nkey := key.map encodeValue
    let tk : TableKey := (ts.name, nkey)
    match materialize s tk with
    | some existing =>
      match pol with
      | .raiseError => .error (.uniqueConstraintViolation ts.name)
      | .doNothing => .ok (existing, s)
      | .doUpdate setFn => applyUpdate ts blk tk (setFn existing) s
    | none =>
      match buildCols ts.name (ts.pk.zip nkey) data ts.columns with
      | .error e => .error e
      | .ok r => .ok (r, pushStore s tk blk (.create r))
  else .error .invalidKeyError

/-- Modelled from the spec (section 4.1): `update(table, key, patch)`. -/
def updateOp (ts : TableSchema) (blk : Nat) (key : List Value) (p : Patch)
    (s : Store) : Except StoreError (Row × Store) :=
  if key.length = ts.pk.length then
    applyUpdate ts blk (ts.name, key.map encodeValue) p s
  else .error .invalidKeyError

/-- Modelled from the spec (section 4.1): `delete(table, key)` — reports
whether a row existed and, when it did, records a pending delete. -/
def deleteOp (ts : TableSchema) (blk : Nat) (key : List Value) (s : Store) :
    Except StoreError (Bool × Store) :=
  if key.length = ts.pk.length then
    let tk : TableKey := (ts.name, key.map encodeValue)
    match materialize s tk with
    | none => .ok (false, s)
    | some _ => .ok (true, pushStore s tk blk .delete)
  else .error .invalidKeyError

/-- Modelled from the spec (section 4.1): `find(table, key)` — the
materialized row or `none`, via the two-layer read-through lookup. -/
def findOp (ts : TableSchema) (key : List Value) (s : Store) :
    Except StoreError (Option Row) :=
  if key.length = ts.pk.length then
    .ok (materialize s (ts.name, key.map encodeValue))
  else .error .invalidKeyError

/-- The effect of a pending history on the value a reader sees for its
identity: a pending create or update exposes the cached row, a pending
delete hides the row, an empty history defers to the given baseline. -/
def histEffect (h : PendingHist) (cur : Option Row) : Option Row :=
  match histOp h with
  | some (.create r) => some r
  | some (.update r) => some r
  | some .delete => none
  | none => cur

/-- The effect of the whole cache on the value a reader sees for one
identity, over a given baseline value. -/
def cacheEffect (p : List (TableKey × PendingHist)) (tk : TableKey)
    (cur : Option Row) : Option Row :=
  match alookup p tk with
  | some h => histEffect h cur
  | none => cur

/-- Applies the terminal pending operation of one cache entry to the
durable baseline: creates and updates write the row, deletes remove it. -/
def applyPendingEntry (d : List (TableKey × Row))
    (e : TableKey × PendingHist) : List (TableKey × Row) :=
  match histOp e.2 with
  | some (.create r) => aset d e.1 r
  | some (.update r) => aset d e.1 r
  | some .delete => aremove d e.1
  | none => d

/-- Modelled from the spec (sections 4.3 and 4.4): a successful flush —
materializes every pending cache entry into durable storage (one terminal
operation per identity, order immaterial across the disjoint keys) and
clears the cache atomically. -/
def flushStore (s : Store) : Store :=
  { durable := s.pending.foldl applyPendingEntry s.durable, pending := [] }

/-- Discards the part of a pending history originating at blocks at or
above the reorg target. -/
def reorgHist (b : Nat) (h : PendingHist) : PendingHist :=
  h.filter (fun x => x.1 < b)

/-- Modelled from the spec (section 4.5, step 1): Reorg Recovery to target
block `b` — every pending row whose originating mutation occurred at block
at or above `b` is discarded outright, reverting the identity to its prior
snapshot, or removing the cache entry entirely when nothing older than `b`
remains (a pending create at or above `b`). -/
def reorgStore (b : Nat) (s : Store) : Store :=
  { s with
    pending := s.pending.filterMap (fun e =>
      let h := reorgHist b e.2
      if h.isEmpty then none else some (e.1, h)) }

/-- The Row Cache holds at most one entry per identity: its keys are
pairwise distinct (spec section 3, uniqueness invariant). -/
def wfStore (s : Store) : Prop := (s.pending.map Prod.fst).Nodup

instance (s : Store) : Decidable (wfStore s) := by
  unfold wfStore; infer_instance

/-- Every pending history of the cache is nonempty and every snapshot it
records originated strictly below the block `b`. -/
def pendingBelow (b : Nat) (s : Store) : Prop :=
  ∀ e ∈ s.pending, e.2 ≠ [] ∧ ∀ x ∈ e.2, x.1 < b

instance (b : Nat) (s : Store) : Decidable (pendingBelow b s) := by
  unfold pendingBelow; infer_instance

/-- A mutation of the Row Cache, as issued by an indexing function. -/
inductive Mut where
| mCreate : List (String × Value) → ConflictPolicy → Mut
| mUpdate : Patch → Mut
| mDelete : Mut

/-- Modelled from the spec (section 6): one ordered event delivered by the
chain-sync collaborator — a block number and the mutation it issues. -/
structure Event where
  blk : Nat
  table : TableSchema
  key : List Value
  act : Mut

/-- Applies one event to the store, keeping only the resulting state. -/
def applyEvent (s : Store) (e : Event) : Except StoreError Store :=
  match e.act with
  | .mCreate data pol =>
    match createOp e.table e.blk e.key data pol s with
    | .ok x => .ok x.2
    | .error err => .error err
  | .mUpdate p =>
    match updateOp e.table e.blk e.key p s with
    | .ok x => .ok x.2
    | .error err => .error err
  | .mDelete =>
    match deleteOp e.table e.blk e.key s with
    | .ok x => .ok x.2
    | .error err => .error err

/-- Runs an ordered list of events, stopping at the first error. -/
def runEvents : Store → List Event → Except StoreError Store
| s, [] => .ok s
| s, e :: rest =>
  match applyEvent s e with
  | .ok s' => runEvents s' rest
  | .error err => .error err

/-- The store a caller holds after a create: the new state on success, the
untouched prior state when the operation was rejected. -/
def createStore (ts : TableSchema) (blk : Nat) (key : List Value)
    (data : List (String × Value)) (pol : ConflictPolicy) (s : Store) : Store :=
  match createOp ts blk key data pol s with
  | .ok x => x.2
  | .error _ => s

/-- The store a caller holds after an update: the new state on success, the
untouched prior state when the operation was rejected. -/
def updateStore (ts : TableSchema) (blk : Nat) (key : List Value) (p : Patch)
    (s : Store) : Store :=
  match updateOp ts blk key p s with
  | .ok x => x.2
  | .error _ => s

/-- A one-string-column table, as in the runtime insert and select tests. -/
def stringTable : TableSchema :=
  { name := "table", pk := ["id"],
    columns := [{ name := "id", kind := .kString, nullable := false, dflt := none }] }

/-- The store of the runtime select test after creating the row kyle. -/
def kyleStore : Store :=
  createStore stringTable 0 [.vStr "kyle"] [] .raiseError emptyStore

/-- A one-hex-column table, as in the select hex test. -/
def hexTable : TableSchema :=
  { name := "table", pk := ["id"],
    columns := [{ name := "id", kind := .kHex, nullable := false, dflt := none }] }

/-- The store of the select hex test after creating the row with id 0x1. -/
def hexStore : Store :=
  createStore hexTable 0 [.vHex "0x1"] [] .raiseError emptyStore

/-- The account table of the select with join test. -/
def accountTable : TableSchema :=
  { name := "account", pk := ["id"],
    columns :=
      [{ name := "id", kind := .kHex, nullable := false, dflt := none },
       { name := "name", kind := .kString, nullable := false, dflt := none },
       { name := "age", kind := .kInt, nullable := false, dflt := none }] }

/-- The nft table of the select with join test; its owner column references
account.id (informational, spec section 3). -/
def nftTable : TableSchema :=
  { name := "nft", pk := ["id"],
    columns :=
      [{ name := "id", kind := .kBigInt, nullable := false, dflt := none },
       { name := "owner", kind := .kHex, nullable := false, dflt := none }] }

/-- The store of the select with join test after creating the account row
with hex id 0x1 and the nft row whose owner is the hex value 0x1. -/
def joinStore : Store :=
  createStore nftTable 0 [.vBigInt 10] [("owner", .vHex "0x1")] .raiseError
    (createStore accountTable 0 [.vHex "0x1"]
      [("name", .vStr "kyle"), ("age", .vInt 52)] .raiseError emptyStore)

/-- A one-bigint-column table, as in the select bigint test. -/
def bigintTable : TableSchema :=
  { name := "table", pk := ["id"],
    columns := [{ name := "id", kind := .kBigInt, nullable := false, dflt := none }] }

/-- Creates a row with a bigint id, flushes, and reads the durable row
back, as in the select bigint test. -/
def bigintFlushRead (i : Int) : Option Row :=
  alookup (flushStore
    (createStore bigintTable 0 [.vBigInt i] [] .raiseError emptyStore)).durable
    ("table", [.vBigInt i])

/-- A string-id table with a JSON column, as in the select json test. -/
def jsonTable : TableSchema :=
  { name := "table", pk := ["id"],
    columns :=
      [{ name := "id", kind := .kString, nullable := false, dflt := none },
       { name := "json", kind := .kJson, nullable := false, dflt := none }] }

/-- Creates a row with a JSON column value, flushes, and reads the durable
row back, as in the select json test. -/
def jsonFlushRead (j : Json) : Option Row :=
  alookup (flushStore
    (createStore jsonTable 0 [.vStr "1"] [("json", .vJson j)] .raiseError
      emptyStore)).durable ("table", [.vStr "1"])

/-- A string-id table with an enum column over hi and low, as in the select
enum test. -/
def enumTable : TableSchema :=
  { name := "table", pk := ["id"],
    columns :=
      [{ name := "id", kind := .kString, nullable := false, dflt := none },
       { name := "en", kind := .kEnum ["hi", "low"], nullable := false,
         dflt := none }] }

/-- Creates a row with an enum column value, flushes, and reads the durable
row back, as in the select enum test. -/
def enumFlushRead (e : String) : Option Row :=
  alookup (flushStore
    (createStore enumTable 0 [.vStr "1"] [("en", .vEnum e)] .raiseError
      emptyStore)).durable ("table", [.vStr "1"])

/-- A string-id table with a list-of-string column, as in the select list
test. -/
def listTable : TableSchema :=
  { name := "table", pk := ["id"],
    columns :=
      [{ name := "id", kind := .kString, nullable := false, dflt := none },
       { name := "list", kind := .kList .kString, nullable := false,
         dflt := none }] }

/-- Creates a row with a list column value, flushes, and reads the durable
row back, as in the select list test. -/
def listFlushRead (l : List String) : Option Row :=
  alookup (flushStore
    (createStore listTable 0 [.vStr "1"] [("list", .vList (strVL l))]
      .raiseError emptyStore)).durable ("table", [.vStr "1"])

/-- Reads an integer column of a materialized row, defaulting to zero. -/
def getIntAt (r : Row) (c : String) : Int :=
  match alookup r c with
  | some (some (.vInt n)) => n
  | _ => 0

/-- A table with a string id and an integer count, for the duplicate-create
upsert scenario of spec section 8. -/
def countTable : TableSchema :=
  { name := "t", pk := ["id"],
    columns :=
      [{ name := "id", kind := .kString, nullable := false, dflt := none },
       { name := "count", kind := .kInt, nullable := false, dflt := none }] }

/-- The conflict handler of the upsert scenario: set count to the existing
materialized count plus one. -/
def incPolicy : ConflictPolicy :=
  .doUpdate (fun row => [("count", some (.vInt (getIntAt row "count" + 1)))])

/-- Two create calls for id x in the same cycle, both carrying count zero
and `onConflictDoUpdate` incrementing count (spec section 8 scenario). -/
def doubleCreateStore : Store :=
  createStore countTable 0 [.vStr "x"] [("count", .vInt 0)] incPolicy
    (createStore countTable 0 [.vStr "x"] [("count", .vInt 0)] incPolicy
      emptyStore)

end PonderStore

namespace PonderStore

theorem alookup_aset_self {α β : Type} [DecidableEq α] (l : List (α × β)) (a : α) (b : β) :
    alookup (aset l a b) a = some b := by
  induction l with
  | nil => simp [aset, alookup]
  | cons hd t ih =>
    obtain ⟨k, v⟩ := hd
    by_cases h : k = a
    · simp [aset, h, alookup]
    · simp [aset, h, alookup, ih]

theorem alookup_aset_ne {α β : Type} [DecidableEq α] (l : List (α × β)) (a c : α) (b : β)
    (h : a ≠ c) : alookup (aset l a b) c = alookup l c := by
  induction l with
  | nil => simp [aset, alookup, h]
  | cons hd t ih =>
    obtain ⟨k, v⟩ := hd
    by_cases hk : k = a
    · subst hk; simp [aset, alookup, h]
    · simp [aset, hk, alookup, ih]

theorem alookup_aremove_self {α β : Type} [DecidableEq α] (l : List (α × β)) (a : α) :
    alookup (aremove l a) a = none := by
  induction l with
  | nil => simp [aremove, alookup]
  | cons hd t ih =>
    obtain ⟨k, v⟩ := hd
    by_cases h : k = a
    · simp [aremove, h, ih]
    · simp [aremove, h, alookup, ih]

theorem alookup_aremove_ne {α β : Type} [DecidableEq α] (l : List (α × β)) (a c : α)
    (h : a ≠ c) : alookup (aremove l a) c = alookup l c := by
  induction l with
  | nil => simp [aremove, alookup]
  | cons hd t ih =>
    obtain ⟨k, v⟩ := hd
    by_cases hk : k = a
    · subst hk; simp [aremove, alookup, h, ih]
    · simp [aremove, hk, alookup, ih]

theorem alookup_eq_none {α β : Type} [DecidableEq α] (l : List (α × β)) (a : α) :
    alookup l a = none ↔ a ∉ l.map Prod.fst := by
  induction l with
  | nil => simp [alookup]
  | cons hd t ih =>
    obtain ⟨k, v⟩ := hd
    by_cases h : k = a
    · subst h; simp [alookup]
    · simp [alookup, h, ih, Ne.symm h]

theorem map_fst_aset {α β : Type} [DecidableEq α] (l : List (α × β)) (a : α) (b : β)
    (h : alookup l a ≠ none) : (aset l a b).map Prod.fst = l.map Prod.fst := by
  induction l with
  | nil => simp [alookup] at h
  | cons hd t ih =>
    obtain ⟨k, v⟩ := hd
    by_cases hk : k = a
    · subst hk; simp [aset]
    · simp only [alookup, if_neg hk] at h
      simp [aset, hk, ih h]

theorem alookup_foldl_applyPendingEntry (p : List (TableKey × PendingHist)) :
    ∀ (d : List (TableKey × Row)) (tk : TableKey), (p.map Prod.fst).Nodup →
    alookup (p.foldl applyPendingEntry d) tk = cacheEffect p tk (alookup d tk) := by
  induction p with
  | nil => intro d tk _; simp [cacheEffect, alookup]
  | cons e t ih =>
    intro d tk hnd
    rw [List.map_cons] at hnd
    obtain ⟨hmem, hnd'⟩ := List.nodup_cons.mp hnd
    rw [List.foldl_cons, ih _ tk hnd']
    by_cases htk : e.1 = tk
    · subst htk
      have ht : alookup t e.1 = none := (alookup_eq_none t e.1).mpr hmem
      have hp : alookup (e :: t) e.1 = some e.2 := by
        obtain ⟨k, v⟩ := e; simp [alookup]
      simp only [cacheEffect, ht, hp]
      unfold applyPendingEntry histEffect
      match hop : histOp e.2 with
      | some (.create r) => simp [hop, alookup_aset_self d e.1 r]
      | some (.update r) => simp [hop, alookup_aset_self d e.1 r]
      | some .delete => simp [hop, alookup_aremove_self d e.1]
      | none => simp [hop]
    · have hp : alookup (e :: t) tk = alookup t tk := by
        obtain ⟨k, v⟩ := e; simp_all [alookup]
      have hd : alookup (applyPendingEntry d e) tk = alookup d tk := by
        unfold applyPendingEntry
        match hop : histOp e.2 with
        | some (.create r) => simp [alookup_aset_ne d e.1 tk r htk]
        | some (.update r) => simp [alookup_aset_ne d e.1 tk r htk]
        | some .delete => simp [alookup_aremove_ne d e.1 tk htk]
        | none => simp
      simp only [cacheEffect, hp, hd]

theorem materialize_eq_cacheEffect (s : Store) (tk : TableKey) :
    materialize s tk = cacheEffect s.pending tk (alookup s.durable tk) := by
  unfold materialize pendingOpAt cacheEffect histEffect
  match h : alookup s.pending tk with
  | some hist =>
    match hop : histOp hist with
    | some (.create r) => simp [hop]
    | some (.update r) => simp [hop]
    | some .delete => simp [hop]
    | none => simp [hop]
  | none => simp

/-- C1: after a flush completes, durable storage holds, at every identity,
exactly the last materialized cache state (pending deltas overlaid on the
prior durable baseline). -/
theorem claim_C1 (s : Store) (hwf : wfStore s) (tk : TableKey) :
    alookup (flushStore s).durable tk = materialize s tk := by
  rw [materialize_eq_cacheEffect]
  exact alookup_foldl_applyPendingEntry s.pending s.durable tk hwf

/-- C1 witness: the runtime select scenario — create row kyle, flush, read
durable storage back. -/
theorem claim_C1_witness :
    wfStore kyleStore ∧
    materialize kyleStore ("table", [.vStr "kyle"]) =
      some [("id", some (.vStr "kyle"))] ∧
    alookup (flushStore kyleStore).durable ("table", [.vStr "kyle"]) =
      materialize kyleStore ("table", [.vStr "kyle"]) :=
  ⟨by decide, by decide, claim_C1 kyleStore (by decide) ("table", [.vStr "kyle"])⟩

end PonderStore

namespace PonderStore

theorem histOp_pushHist (blk : Nat) (op : PendingOp) (h : PendingHist) :
    histOp (pushHist blk op h) = some op := by
  match h with
  | [] => rfl
  | (b, o) :: t => by_cases hb : b = blk <;> simp [pushHist, hb, histOp]

theorem nodup_pushPending (p : List (TableKey × PendingHist)) (tk : TableKey)
    (blk : Nat) (op : PendingOp) (h : (p.map Prod.fst).Nodup) :
    ((pushPending p tk blk op).map Prod.fst).Nodup := by
  unfold pushPending
  match hl : alookup p tk with
  | some hist => rw [map_fst_aset p tk _ (by simp [hl])]; exact h
  | none =>
    simp only [List.map_cons]
    exact List.nodup_cons.mpr ⟨(alookup_eq_none p tk).mp hl, h⟩

theorem wf_pushStore (s : Store) (tk : TableKey) (blk : Nat) (op : PendingOp)
    (h : wfStore s) : wfStore (pushStore s tk blk op) :=
  nodup_pushPending s.pending tk blk op h

theorem pendingOpAt_pushStore (s : Store) (tk : TableKey) (blk : Nat)
    (op : PendingOp) : pendingOpAt (pushStore s tk blk op) tk = some op := by
  match hl : alookup s.pending tk with
  | some hist =>
    simp only [pendingOpAt, pushStore, pushPending, hl, alookup_aset_self]
    exact histOp_pushHist blk op hist
  | none =>
    simp [pendingOpAt, pushStore, pushPending, hl, alookup, histOp]

theorem materialize_push (s : Store) (tk : TableKey) (blk : Nat)
    (prev : Option PendingOp) (m : Row) :
    materialize (pushStore s tk blk (coalesceUpdate prev m)) tk = some m := by
  unfold materialize
  rw [pendingOpAt_pushStore]
  rcases prev with _ | op
  · rfl
  · cases op <;> rfl

theorem applyUpdate_ok (ts : TableSchema) (blk : Nat) (tk : TableKey) (p : Patch)
    (s : Store) (r : Row) (s' : Store)
    (h : applyUpdate ts blk tk p s = .ok (r, s')) :
    ∃ cur, materialize s tk = some cur ∧ r = mergeRow cur p ∧
      validateRow ts.name ts.columns (mergeRow cur p) = .ok () ∧
      s' = pushStore s tk blk
        (coalesceUpdate (pendingOpAt s tk) (mergeRow cur p)) := by
  simp only [applyUpdate] at h
  match hm : materialize s tk with
  | none => simp only [hm] at h; exact (Except.noConfusion h)
  | some cur =>
    simp only [hm] at h
    match hv : validateRow ts.name ts.columns (mergeRow cur p) with
    | .error e => simp only [hv] at h; exact (Except.noConfusion h)
    | .ok _ =>
      simp only [hv, Except.ok.injEq, Prod.mk.injEq] at h
      obtain ⟨rfl, rfl⟩ := h
      exact ⟨cur, rfl, rfl, hv, rfl⟩

theorem createOp_ok (ts : TableSchema) (blk : Nat) (key : List Value)
    (data : List (String × Value)) (pol : ConflictPolicy) (s : Store)
    (r : Row) (s' : Store) (h : createOp ts blk key data pol s = .ok (r, s')) :
    key.length = ts.pk.length ∧
    ((materialize s (ts.name, key.map encodeValue) = none ∧
        buildCols ts.name (ts.pk.zip (key.map encodeValue)) data ts.columns = .ok r ∧
        s' = pushStore s (ts.name, key.map encodeValue) blk (.create r)) ∨
      (∃ ex, materialize s (ts.name, key.map encodeValue) = some ex ∧
        ((pol = .doNothing ∧ r = ex ∧ s' = s) ∨
          (∃ f, pol = .doUpdate f ∧
            applyUpdate ts blk (ts.name, key.map encodeValue) (f ex) s = .ok (r, s'))))) := by
  by_cases hk : key.length = ts.pk.length
  · refine ⟨hk, ?_⟩
    match pol with
    | .raiseError =>
      simp only [createOp, if_pos hk] at h
      match hm : materialize s (ts.name, key.map encodeValue) with
      | some ex => simp only [hm] at h; exact (Except.noConfusion h)
      | none =>
        simp only [hm] at h
        match hb : buildCols ts.name (ts.pk.zip (key.map encodeValue)) data ts.columns with
        | .error e => simp only [hb] at h; exact (Except.noConfusion h)
        | .ok row =>
          simp only [hb, Except.ok.injEq, Prod.mk.injEq] at h
          obtain ⟨rfl, rfl⟩ := h
          exact .inl ⟨rfl, rfl, rfl⟩
    | .doNothing =>
      simp only [createOp, if_pos hk] at h
      match hm : materialize s (ts.name, key.map encodeValue) with
      | some ex =>
        simp only [hm, Except.ok.injEq, Prod.mk.injEq] at h
        obtain ⟨rfl, rfl⟩ := h
        exact .inr ⟨ex, rfl, .inl ⟨rfl, rfl, rfl⟩⟩
      | none =>
        simp only [hm] at h
        match hb : buildCols ts.name (ts.pk.zip (key.map encodeValue)) data ts.columns with
        | .error e => simp only [hb] at h; exact (Except.noConfusion h)
        | .ok row =>
          simp only [hb, Except.ok.injEq, Prod.mk.injEq] at h
          obtain ⟨rfl, rfl⟩ := h
          exact .inl ⟨rfl, rfl, rfl⟩
    | .doUpdate f =>
      simp only [createOp, if_pos hk] at h
      match hm : materialize s (ts.name, key.map encodeValue) with
      | some ex =>
        simp only [hm] at h
        exact .inr ⟨ex, rfl, .inr ⟨f, rfl, h⟩⟩
      | none =>
        simp only [hm] at h
        match hb : buildCols ts.name (ts.pk.zip (key.map encodeValue)) data ts.columns with
        | .error e => simp only [hb] at h; exact (Except.noConfusion h)
        | .ok row =>
          simp only [hb, Except.ok.injEq, Prod.mk.injEq] at h
          obtain ⟨rfl, rfl⟩ := h
          exact .inl ⟨rfl, rfl, rfl⟩
  · simp only [createOp, if_neg hk] at h
    exact (Except.noConfusion h)

theorem deleteOp_ok (ts : TableSchema) (blk : Nat) (key : List Value)
    (s : Store) (b : Bool) (s' : Store)
    (h : deleteOp ts blk key s = .ok (b, s')) :
    key.length = ts.pk.length ∧
    ((materialize s (ts.name, key.map encodeValue) = none ∧ b = false ∧ s' = s) ∨
      (∃ cur, materialize s (ts.name, key.map encodeValue) = some cur ∧
        b = true ∧ s' = pushStore s (ts.name, key.map encodeValue) blk .delete)) := by
  by_cases hk : key.length = ts.pk.length
  · refine ⟨hk, ?_⟩
    simp only [deleteOp, if_pos hk] at h
    match hm : materialize s (ts.name, key.map encodeValue) with
    | none =>
      simp only [hm, Except.ok.injEq, Prod.mk.injEq] at h
      obtain ⟨rfl, rfl⟩ := h
      exact .inl ⟨rfl, rfl, rfl⟩
    | some cur =>
      simp only [hm, Except.ok.injEq, Prod.mk.injEq] at h
      obtain ⟨rfl, rfl⟩ := h
      exact .inr ⟨cur, rfl, rfl, rfl⟩
  · simp only [deleteOp, if_neg hk] at h
    exact (Except.noConfusion h)

theorem updateOp_ok (ts : TableSchema) (blk : Nat) (key : List Value) (p : Patch)
    (s : Store) (r : Row) (s' : Store)
    (h : updateOp ts blk key p s = .ok (r, s')) :
    key.length = ts.pk.length ∧
    applyUpdate ts blk (ts.name, key.map encodeValue) p s = .ok (r, s') := by
  by_cases hk : key.length = ts.pk.length
  · simp only [updateOp, if_pos hk] at h; exact ⟨hk, h⟩
  · simp only [updateOp, if_neg hk] at h
    exact (Except.noConfusion h)

theorem wf_createOp (ts : TableSchema) (blk : Nat) (key : List Value)
    (data : List (String × Value)) (pol : ConflictPolicy) (s : Store)
    (r : Row) (s' : Store) (hwf : wfStore s)
    (h : createOp ts blk key data pol s = .ok (r, s')) : wfStore s' := by
  obtain ⟨-, hcase⟩ := createOp_ok ts blk key data pol s r s' h
  rcases hcase with ⟨-, -, rfl⟩ | ⟨ex, -, hcase⟩
  · exact wf_pushStore _ _ _ _ hwf
  · rcases hcase with ⟨-, -, rfl⟩ | ⟨f, -, hup⟩
    · exact hwf
    · obtain ⟨cur, -, -, -, rfl⟩ := applyUpdate_ok _ _ _ _ _ _ _ hup
      exact wf_pushStore _ _ _ _ hwf

theorem wf_updateOp (ts : TableSchema) (blk : Nat) (key : List Value) (p : Patch)
    (s : Store) (r : Row) (s' : Store) (hwf : wfStore s)
    (h : updateOp ts blk key p s = .ok (r, s')) : wfStore s' := by
  obtain ⟨-, hup⟩ := updateOp_ok ts blk key p s r s' h
  obtain ⟨cur, -, -, -, rfl⟩ := applyUpdate_ok _ _ _ _ _ _ _ hup
  exact wf_pushStore _ _ _ _ hwf

theorem wf_deleteOp (ts : TableSchema) (blk : Nat) (key : List Value)
    (s : Store) (b : Bool) (s' : Store) (hwf : wfStore s)
    (h : deleteOp ts blk key s = .ok (b, s')) : wfStore s' := by
  obtain ⟨-, hcase⟩ := deleteOp_ok ts blk key s b s' h
  rcases hcase with ⟨-, -, rfl⟩ | ⟨cur, -, -, rfl⟩
  · exact hwf
  · exact wf_pushStore _ _ _ _ hwf

theorem wf_applyEvent (s : Store) (e : Event) (s' : Store) (hwf : wfStore s)
    (h : applyEvent s e = .ok s') : wfStore s' := by
  match he : e.act with
  | .mCreate data pol =>
    simp only [applyEvent, he] at h
    match hc : createOp e.table e.blk e.key data pol s with
    | .ok x =>
      simp only [hc, Except.ok.injEq] at h
      subst h
      exact wf_createOp _ _ _ _ _ _ _ _ hwf hc
    | .error err => simp only [hc] at h; exact (Except.noConfusion h)
  | .mUpdate p =>
    simp only [applyEvent, he] at h
    match hc : updateOp e.table e.blk e.key p s with
    | .ok x =>
      simp only [hc, Except.ok.injEq] at h
      subst h
      exact wf_updateOp _ _ _ _ _ _ _ hwf hc
    | .error err => simp only [hc] at h; exact (Except.noConfusion h)
  | .mDelete =>
    simp only [applyEvent, he] at h
    match hc : deleteOp e.table e.blk e.key s with
    | .ok x =>
      simp only [hc, Except.ok.injEq] at h
      subst h
      exact wf_deleteOp _ _ _ _ _ _ hwf hc
    | .error err => simp only [hc] at h; exact (Except.noConfusion h)

theorem wf_runEvents (evs : List Event) : ∀ (s s' : Store), wfStore s →
    runEvents s evs = .ok s' → wfStore s' := by
  induction evs with
  | nil =>
    intro s s' hwf h
    simp only [runEvents, Except.ok.injEq] at h
    subst h; exact hwf
  | cons e t ih =>
    intro s s' hwf h
    simp only [runEvents] at h
    match ha : applyEvent s e with
    | .error err => simp only [ha] at h; exact (Except.noConfusion h)
    | .ok s1 => simp only [ha] at h; exact ih s1 s' (wf_applyEvent s e s1 hwf ha) h

end PonderStore

namespace PonderStore

/-- C2: within one flush cycle the cache holds at most one pending row per
identity (pairwise-distinct cache keys survive every successful event run),
and repeated operations on one key coalesce into the terminal pending
operation of the in-order sequence: create-then-update coalesces to a
single pending create carrying the updated fields, and update-then-delete
coalesces to a pending delete. -/
theorem claim_C2 :
    (∀ (s : Store) (evs : List Event) (s' : Store), wfStore s →
      runEvents s evs = .ok s' →
      ∀ tk : TableKey,
        @List.count TableKey instBEqOfDecidableEq tk (s'.pending.map Prod.fst) ≤ 1)
    ∧ (∀ (ts : TableSchema) (b1 b2 : Nat) (key : List Value)
        (data : List (String × Value)) (p : Patch) (s : Store)
        (r1 r2 : Row) (s1 s2 : Store),
        createOp ts b1 key data .raiseError s = .ok (r1, s1) →
        updateOp ts b2 key p s1 = .ok (r2, s2) →
        r2 = mergeRow r1 p ∧
        pendingOpAt s2 (ts.name, key.map encodeValue) =
          some (.create (mergeRow r1 p)))
    ∧ (∀ (ts : TableSchema) (b1 b2 : Nat) (key : List Value) (p : Patch)
        (s : Store) (r1 : Row) (s1 s2 : Store) (b : Bool),
        updateOp ts b1 key p s = .ok (r1, s1) →
        deleteOp ts b2 key s1 = .ok (b, s2) →
        b = true ∧
        pendingOpAt s2 (ts.name, key.map encodeValue) = some .delete) := by
  refine ⟨?_, ?_, ?_⟩
  · intro s evs s' hwf hrun tk
    exact List.nodup_iff_count_le_one.mp (wf_runEvents evs s s' hwf hrun) tk
  · intro ts b1 b2 key data p s r1 r2 s1 s2 h1 h2
    obtain ⟨hk, hcase⟩ := createOp_ok ts b1 key data .raiseError s r1 s1 h1
    rcases hcase with ⟨hm, hb, rfl⟩ | ⟨ex, hm, hcase⟩
    · obtain ⟨-, hup⟩ := updateOp_ok ts b2 key p _ r2 s2 h2
      obtain ⟨cur, hcur, hr2, hv, hs2⟩ := applyUpdate_ok ts b2 _ p _ r2 s2 hup
      have hmat :
          materialize (pushStore s (ts.name, key.map encodeValue) b1 (.create r1))
            (ts.name, key.map encodeValue) = some r1 := by
        unfold materialize
        rw [pendingOpAt_pushStore]
      obtain rfl : r1 = cur := Option.some.inj (hmat.symm.trans hcur)
      subst hs2
      refine ⟨hr2, ?_⟩
      rw [pendingOpAt_pushStore, pendingOpAt_pushStore]
      rfl
    · rcases hcase with ⟨heq, -, -⟩ | ⟨f, heq, -⟩
      · exact (ConflictPolicy.noConfusion heq)
      · exact (ConflictPolicy.noConfusion heq)
  · intro ts b1 b2 key p s r1 s1 s2 b h1 h2
    obtain ⟨hk, hup⟩ := updateOp_ok ts b1 key p s r1 s1 h1
    obtain ⟨cur, hcur, hr1, hv, hs1⟩ := applyUpdate_ok ts b1 _ p s r1 s1 hup
    subst hs1
    obtain ⟨-, hdel⟩ := deleteOp_ok ts b2 key _ b s2 h2
    rcases hdel with ⟨hmn, hb, hs2⟩ | ⟨cur2, hm2, hb, hs2⟩
    · rw [materialize_push] at hmn
      exact (Option.noConfusion hmn)
    · subst hs2
      exact ⟨hb, pendingOpAt_pushStore _ _ _ _⟩

/-- C2 witness: a concrete create run keeps a single cache entry; a
create-then-update at blocks 0 and 1 coalesces into one pending create with
the updated count; an update-then-delete coalesces into a pending delete. -/
theorem claim_C2_witness :
    (@List.count TableKey instBEqOfDecidableEq (("t", [Value.vStr "x"]) : TableKey)
      ((Store.mk [] [(("t", [.vStr "x"]),
        [(0, .create [("id", some (.vStr "x")), ("count", some (.vInt 0))])])]).pending.map
        Prod.fst) ≤ 1)
    ∧ ([("id", some (Value.vStr "x")), ("count", some (Value.vInt 5))] =
        mergeRow [("id", some (.vStr "x")), ("count", some (.vInt 0))]
          [("count", some (.vInt 5))] ∧
      pendingOpAt (Store.mk [] [(("t", [.vStr "x"]),
          [(1, .create [("id", some (.vStr "x")), ("count", some (.vInt 5))]),
           (0, .create [("id", some (.vStr "x")), ("count", some (.vInt 0))])])])
        ("t", [.vStr "x"]) =
        some (.create (mergeRow [("id", some (.vStr "x")), ("count", some (.vInt 0))]
          [("count", some (.vInt 5))])))
    ∧ (true = true ∧
      pendingOpAt (Store.mk [(("t", [.vStr "x"]),
          [("id", some (.vStr "x")), ("count", some (.vInt 0))])]
          [(("t", [.vStr "x"]),
            [(2, .delete),
             (1, .update [("id", some (.vStr "x")), ("count", some (.vInt 5))])])])
        ("t", [.vStr "x"]) = some .delete) := by
  refine ⟨?_, ?_, ?_⟩
  · exact claim_C2.1 emptyStore
      [⟨0, countTable, [.vStr "x"], .mCreate [("count", .vInt 0)] .raiseError⟩]
      (Store.mk [] [(("t", [.vStr "x"]),
        [(0, .create [("id", some (.vStr "x")), ("count", some (.vInt 0))])])])
      (by decide) (by decide) ("t", [.vStr "x"])
  · exact claim_C2.2.1 countTable 0 1 [.vStr "x"] [("count", .vInt 0)]
      [("count", some (.vInt 5))] emptyStore
      [("id", some (.vStr "x")), ("count", some (.vInt 0))]
      [("id", some (.vStr "x")), ("count", some (.vInt 5))]
      (Store.mk [] [(("t", [.vStr "x"]),
        [(0, .create [("id", some (.vStr "x")), ("count", some (.vInt 0))])])])
      (Store.mk [] [(("t", [.vStr "x"]),
        [(1, .create [("id", some (.vStr "x")), ("count", some (.vInt 5))]),
         (0, .create [("id", some (.vStr "x")), ("count", some (.vInt 0))])])])
      (by decide) (by decide)
  · exact claim_C2.2.2 countTable 1 2 [.vStr "x"] [("count", some (.vInt 5))]
      (Store.mk [(("t", [.vStr "x"]),
        [("id", some (.vStr "x")), ("count", some (.vInt 0))])] [])
      [("id", some (.vStr "x")), ("count", some (.vInt 5))]
      (Store.mk [(("t", [.vStr "x"]),
        [("id", some (.vStr "x")), ("count", some (.vInt 0))])]
        [(("t", [.vStr "x"]),
          [(1, .update [("id", some (.vStr "x")), ("count", some (.vInt 5))])])])
      (Store.mk [(("t", [.vStr "x"]),
        [("id", some (.vStr "x")), ("count", some (.vInt 0))])]
        [(("t", [.vStr "x"]),
          [(2, .delete),
           (1, .update [("id", some (.vStr "x")), ("count", some (.vInt 5))])])])
      true (by decide) (by decide)

end PonderStore

namespace PonderStore

theorem filterMap_id_of {α : Type} (f : α → Option α) (l : List α)
    (h : ∀ a ∈ l, f a = some a) : l.filterMap f = l := by
  induction l with
  | nil => rfl
  | cons hd t ih =>
    rw [List.filterMap_cons, h hd (List.mem_cons_self hd t),
      ih (fun a ha => h a (List.mem_cons_of_mem hd ha))]

theorem filterMap_aset {α β γ : Type} [DecidableEq α] (f : α × β → Option γ)
    (l : List (α × β)) (a : α) (b h : β) (hl : alookup l a = some h)
    (hf : f (a, b) = f (a, h)) : (aset l a b).filterMap f = l.filterMap f := by
  induction l with
  | nil => exact (Option.noConfusion hl)
  | cons hd t ih =>
    obtain ⟨k, v⟩ := hd
    by_cases hk : k = a
    · subst hk
      simp only [alookup, if_true, eq_self_iff_true, Option.some.injEq] at hl
      subst hl
      simp [aset, List.filterMap_cons, hf]
    · simp only [alookup, if_neg hk] at hl
      simp only [aset, if_neg hk, List.filterMap_cons]
      cases hc : f (k, v) <;> simp [ih hl]

theorem mem_aset {α β : Type} [DecidableEq α] (l : List (α × β)) (a : α) (v : β)
    (e : α × β) (hmem : e ∈ aset l a v) : e = (a, v) ∨ e ∈ l := by
  induction l with
  | nil => simpa [aset] using hmem
  | cons hd t ih =>
    obtain ⟨k, w⟩ := hd
    by_cases hk : k = a
    · subst hk
      simp only [aset, if_true, eq_self_iff_true, List.mem_cons] at hmem
      rcases hmem with hmem | hmem
      · exact .inl hmem
      · exact .inr (List.mem_cons_of_mem _ hmem)
    · simp only [aset, if_neg hk, List.mem_cons] at hmem
      rcases hmem with hmem | hmem
      · exact .inr (hmem ▸ List.mem_cons_self _ _)
      · rcases ih hmem with h' | h'
        · exact .inl h'
        · exact .inr (List.mem_cons_of_mem _ h')

theorem alookup_mem {α β : Type} [DecidableEq α] (l : List (α × β)) (a : α) (v : β)
    (h : alookup l a = some v) : (a, v) ∈ l := by
  induction l with
  | nil => exact (Option.noConfusion h)
  | cons hd t ih =>
    obtain ⟨k, w⟩ := hd
    by_cases hk : k = a
    · subst hk
      simp only [alookup, if_true, eq_self_iff_true, Option.some.injEq] at h
      subst h
      exact List.mem_cons_self _ _
    · simp only [alookup, if_neg hk] at h
      exact List.mem_cons_of_mem _ (ih h)

theorem mem_pushHist (blk : Nat) (op : PendingOp) (h : PendingHist)
    (x : Nat × PendingOp) (hx : x ∈ pushHist blk op h) :
    x = (blk, op) ∨ x ∈ h := by
  match h with
  | [] => simpa [pushHist] using hx
  | (b0, o0) :: t =>
    by_cases h0 : b0 = blk
    · subst h0
      simp only [pushHist, if_true, eq_self_iff_true, List.mem_cons] at hx
      rcases hx with hx | hx
      · exact .inl hx
      · exact .inr (List.mem_cons_of_mem _ hx)
    · simp only [pushHist, if_neg h0, List.mem_cons] at hx
      rcases hx with hx | hx
      · exact .inl hx
      · exact .inr (List.mem_cons.mpr hx)

theorem pushHist_ne_nil (blk : Nat) (op : PendingOp) (h : PendingHist) :
    pushHist blk op h ≠ [] := by
  match h with
  | [] => simp [pushHist]
  | (b0, o0) :: t => by_cases h0 : b0 = blk <;> simp [pushHist, h0]

theorem reorg_id_of_below (b : Nat) (s : Store) (h : pendingBelow b s) :
    reorgStore b s = s := by
  unfold reorgStore
  cases s with
  | mk dur pend =>
    simp only [Store.mk.injEq, true_and]
    apply filterMap_id_of
    intro e he
    obtain ⟨hne, hlt⟩ := h e he
    have hfix : reorgHist b e.2 = e.2 :=
      List.filter_eq_self.mpr (fun x hx => by simpa using hlt x hx)
    simp [hfix, hne]

theorem reorgHist_pushHist (b blk : Nat) (op : PendingOp) (h : PendingHist)
    (hb : b ≤ blk) : reorgHist b (pushHist blk op h) = reorgHist b h := by
  match h with
  | [] => simp [pushHist, reorgHist, Nat.not_lt.mpr hb]
  | (b0, o0) :: t =>
    by_cases h0 : b0 = blk
    · subst h0; simp [pushHist, reorgHist, Nat.not_lt.mpr hb]
    · simp [pushHist, h0, reorgHist, Nat.not_lt.mpr hb]

theorem reorg_pushStore (b : Nat) (s : Store) (tk : TableKey) (blk : Nat)
    (op : PendingOp) (hb : b ≤ blk) :
    reorgStore b (pushStore s tk blk op) = reorgStore b s := by
  unfold reorgStore pushStore pushPending
  cases hl : alookup s.pending tk with
  | none =>
    simp only [Store.mk.injEq, true_and]
    rw [List.filterMap_cons]
    simp [reorgHist, Nat.not_lt.mpr hb]
  | some hist =>
    simp only [Store.mk.injEq, true_and]
    apply filterMap_aset _ s.pending tk _ hist hl
    simp only [reorgHist_pushHist b blk op hist hb]

end PonderStore

namespace PonderStore

theorem pendingBelow_pushStore (b : Nat) (s : Store) (tk : TableKey) (blk : Nat)
    (op : PendingOp) (hblk : blk < b) (hp : pendingBelow b s) :
    pendingBelow b (pushStore s tk blk op) := by
  intro e he
  unfold pushStore pushPending at he
  cases hl : alookup s.pending tk with
  | none =>
    rw [hl] at he
    simp only [List.mem_cons] at he
    rcases he with rfl | he
    · refine ⟨by simp, ?_⟩
      intro x hx
      simp only [List.mem_singleton] at hx
      subst hx
      exact hblk
    · exact hp e he
  | some hist =>
    rw [hl] at he
    rcases mem_aset _ _ _ _ he with rfl | he
    · refine ⟨pushHist_ne_nil blk op hist, ?_⟩
      intro x hx
      rcases mem_pushHist blk op hist x hx with rfl | hx
      · exact hblk
      · exact (hp (tk, hist) (alookup_mem _ _ _ hl)).2 x hx
    · exact hp e he

theorem pendingBelow_applyEvent (b : Nat) (s s' : Store) (e : Event)
    (hblk : e.blk < b) (hp : pendingBelow b s) (h : applyEvent s e = .ok s') :
    pendingBelow b s' := by
  match he : e.act with
  | .mCreate data pol =>
    simp only [applyEvent, he] at h
    match hc : createOp e.table e.blk e.key data pol s with
    | .error err => simp only [hc] at h; exact (Except.noConfusion h)
    | .ok (r0, s0) =>
      simp only [hc, Except.ok.injEq] at h
      subst h
      obtain ⟨-, hcase⟩ := createOp_ok _ _ _ _ _ _ _ _ hc
      rcases hcase with ⟨-, -, rfl⟩ | ⟨ex, -, hcase⟩
      · exact pendingBelow_pushStore b s _ _ _ hblk hp
      · rcases hcase with ⟨-, -, rfl⟩ | ⟨f, -, hup⟩
        · exact hp
        · obtain ⟨cur, -, -, -, rfl⟩ := applyUpdate_ok _ _ _ _ _ _ _ hup
          exact pendingBelow_pushStore b s _ _ _ hblk hp
  | .mUpdate p =>
    simp only [applyEvent, he] at h
    match hc : updateOp e.table e.blk e.key p s with
    | .error err => simp only [hc] at h; exact (Except.noConfusion h)
    | .ok (r0, s0) =>
      simp only [hc, Except.ok.injEq] at h
      subst h
      obtain ⟨-, hup⟩ := updateOp_ok _ _ _ _ _ _ _ hc
      obtain ⟨cur, -, -, -, rfl⟩ := applyUpdate_ok _ _ _ _ _ _ _ hup
      exact pendingBelow_pushStore b s _ _ _ hblk hp
  | .mDelete =>
    simp only [applyEvent, he] at h
    match hc : deleteOp e.table e.blk e.key s with
    | .error err => simp only [hc] at h; exact (Except.noConfusion h)
    | .ok (b0, s0) =>
      simp only [hc, Except.ok.injEq] at h
      subst h
      obtain ⟨-, hcase⟩ := deleteOp_ok _ _ _ _ _ _ hc
      rcases hcase with ⟨-, -, rfl⟩ | ⟨cur, -, -, rfl⟩
      · exact hp
      · exact pendingBelow_pushStore b s _ _ _ hblk hp

theorem pendingBelow_runEvents (b : Nat) (evs : List Event) : ∀ (s s' : Store),
    (∀ e ∈ evs, e.blk < b) → pendingBelow b s → runEvents s evs = .ok s' →
    pendingBelow b s' := by
  induction evs with
  | nil =>
    intro s s' _ hp h
    simp only [runEvents, Except.ok.injEq] at h
    subst h; exact hp
  | cons e t ih =>
    intro s s' hblk hp h
    simp only [runEvents] at h
    match ha : applyEvent s e with
    | .error err => simp only [ha] at h; exact (Except.noConfusion h)
    | .ok s1 =>
      simp only [ha] at h
      exact ih s1 s' (fun x hx => hblk x (List.mem_cons_of_mem e hx))
        (pendingBelow_applyEvent b s s1 e (hblk e (List.mem_cons_self e t)) hp ha) h

theorem reorg_applyEvent_high (b : Nat) (s s' : Store) (e : Event)
    (hb : b ≤ e.blk) (h : applyEvent s e = .ok s') :
    reorgStore b s' = reorgStore b s := by
  match he : e.act with
  | .mCreate data pol =>
    simp only [applyEvent, he] at h
    match hc : createOp e.table e.blk e.key data pol s with
    | .error err => simp only [hc] at h; exact (Except.noConfusion h)
    | .ok (r0, s0) =>
      simp only [hc, Except.ok.injEq] at h
      subst h
      obtain ⟨-, hcase⟩ := createOp_ok _ _ _ _ _ _ _ _ hc
      rcases hcase with ⟨-, -, rfl⟩ | ⟨ex, -, hcase⟩
      · exact reorg_pushStore b s _ _ _ hb
      · rcases hcase with ⟨-, -, rfl⟩ | ⟨f, -, hup⟩
        · rfl
        · obtain ⟨cur, -, -, -, rfl⟩ := applyUpdate_ok _ _ _ _ _ _ _ hup
          exact reorg_pushStore b s _ _ _ hb
  | .mUpdate p =>
    simp only [applyEvent, he] at h
    match hc : updateOp e.table e.blk e.key p s with
    | .error err => simp only [hc] at h; exact (Except.noConfusion h)
    | .ok (r0, s0) =>
      simp only [hc, Except.ok.injEq] at h
      subst h
      obtain ⟨-, hup⟩ := updateOp_ok _ _ _ _ _ _ _ hc
      obtain ⟨cur, -, -, -, rfl⟩ := applyUpdate_ok _ _ _ _ _ _ _ hup
      exact reorg_pushStore b s _ _ _ hb
  | .mDelete =>
    simp only [applyEvent, he] at h
    match hc : deleteOp e.table e.blk e.key s with
    | .error err => simp only [hc] at h; exact (Except.noConfusion h)
    | .ok (b0, s0) =>
      simp only [hc, Except.ok.injEq] at h
      subst h
      obtain ⟨-, hcase⟩ := deleteOp_ok _ _ _ _ _ _ hc
      rcases hcase with ⟨-, -, rfl⟩ | ⟨cur, -, -, rfl⟩
      · rfl
      · exact reorg_pushStore b s _ _ _ hb

theorem reorg_runEvents_high (b : Nat) (evs : List Event) : ∀ (s s' : Store),
    (∀ e ∈ evs, b ≤ e.blk) → runEvents s evs = .ok s' →
    reorgStore b s' = reorgStore b s := by
  induction evs with
  | nil =>
    intro s s' _ h
    simp only [runEvents, Except.ok.injEq] at h
    subst h; rfl
  | cons e t ih =>
    intro s s' hblk h
    simp only [runEvents] at h
    match ha : applyEvent s e with
    | .error err => simp only [ha] at h; exact (Except.noConfusion h)
    | .ok s1 =>
      simp only [ha] at h
      rw [ih s1 s' (fun x hx => hblk x (List.mem_cons_of_mem e hx)) h]
      exact reorg_applyEvent_high b s s1 e (hblk e (List.mem_cons_self e t)) ha

theorem runEvents_append (s : Store) (l1 l2 : List Event) :
    runEvents s (l1 ++ l2) =
      match runEvents s l1 with
      | .ok s1 => runEvents s1 l2
      | .error err => .error err := by
  induction l1 generalizing s with
  | nil => simp [runEvents]
  | cons e t ih =>
    simp only [List.cons_append, runEvents]
    cases applyEvent s e <;> simp [ih]

/-- C3: a reorg to a target block after mutations at blocks below and at or
above the target discards exactly the pending snapshots originating at or
above the target: the recovered store is the store produced by the strictly
earlier mutations alone — pending creates at or above the target vanish,
other identities revert to their prior snapshot, and every mutation
strictly below the target is untouched. -/
theorem claim_C3 (b : Nat) (s : Store) (low high : List Event) (s' s'' : Store)
    (hs : pendingBelow b s) (hlow : ∀ e ∈ low, e.blk < b)
    (hhigh : ∀ e ∈ high, b ≤ e.blk)
    (hrunlow : runEvents s low = .ok s')
    (hrun : runEvents s (low ++ high) = .ok s'') :
    reorgStore b s'' = s' := by
  have hsplit : runEvents s' high = .ok s'' := by
    have hap := runEvents_append s low high
    rw [hrunlow] at hap
    simp only at hap
    rw [← hap]
    exact hrun
  rw [reorg_runEvents_high b high s' s'' hhigh hsplit]
  exact reorg_id_of_below b s' (pendingBelow_runEvents b low s s' hlow hs hrunlow)

end PonderStore

namespace PonderStore

/-- C3 witness: mutations at blocks 4, 5 and 6 followed by a reorg to
block 5 — recovery yields exactly the store produced by the block-4
mutation alone: the block-5 update snapshot of row x is discarded
(reverting x to its block-4 pending create) and the block-6 pending create
of row y is removed entirely. -/
theorem claim_C3_witness :
    pendingBelow 5 emptyStore ∧
    reorgStore 5 (Store.mk []
      [(("t", [.vStr "y"]),
        [(6, .create [("id", some (.vStr "y")), ("count", some (.vInt 2))])]),
       (("t", [.vStr "x"]),
        [(5, .create [("id", some (.vStr "x")), ("count", some (.vInt 1))]),
         (4, .create [("id", some (.vStr "x")), ("count", some (.vInt 0))])])]) =
    Store.mk [] [(("t", [.vStr "x"]),
      [(4, .create [("id", some (.vStr "x")), ("count", some (.vInt 0))])])] :=
  ⟨by decide,
    claim_C3 5 emptyStore
      [⟨4, countTable, [.vStr "x"], .mCreate [("count", .vInt 0)] .raiseError⟩]
      [⟨5, countTable, [.vStr "x"], .mUpdate [("count", some (.vInt 1))]⟩,
       ⟨6, countTable, [.vStr "y"], .mCreate [("count", .vInt 2)] .raiseError⟩]
      (Store.mk [] [(("t", [.vStr "x"]),
        [(4, .create [("id", some (.vStr "x")), ("count", some (.vInt 0))])])])
      (Store.mk []
        [(("t", [.vStr "y"]),
          [(6, .create [("id", some (.vStr "y")), ("count", some (.vInt 2))])]),
         (("t", [.vStr "x"]),
          [(5, .create [("id", some (.vStr "x")), ("count", some (.vInt 1))]),
           (4, .create [("id", some (.vStr "x")), ("count", some (.vInt 0))])])])
      (by decide) (by decide) (by decide) (by decide) (by decide)⟩

end PonderStore

namespace PonderStore

/-- C4: a create with no conflict handling attached fails with
`UniqueConstraintViolation` whenever a non-deleted row is already
materialized at the key, whether that row lives in the cache or in durable
storage. -/
theorem claim_C4 (ts : TableSchema) (blk : Nat) (key : List Value)
    (data : List (String × Value)) (s : Store) (r : Row)
    (hk : key.length = ts.pk.length)
    (hm : materialize s (ts.name, key.map encodeValue) = some r) :
    createOp ts blk key data .raiseError s =
      .error (.uniqueConstraintViolation ts.name) := by
  simp [createOp, if_pos hk, hm]

/-- C4 witness: creating id x against a durable row at x, and against a
cached pending create at x, both fail with the unique-constraint error. -/
theorem claim_C4_witness :
    ([Value.vStr "x"].length = countTable.pk.length ∧
      materialize (Store.mk [(("t", [.vStr "x"]),
          [("id", some (.vStr "x")), ("count", some (.vInt 0))])] [])
        ("t", [Value.vStr "x"].map encodeValue) =
        some [("id", some (.vStr "x")), ("count", some (.vInt 0))] ∧
      createOp countTable 1 [.vStr "x"] [("count", .vInt 7)] .raiseError
        (Store.mk [(("t", [.vStr "x"]),
          [("id", some (.vStr "x")), ("count", some (.vInt 0))])] []) =
        .error (.uniqueConstraintViolation "t")) ∧
    createOp countTable 1 [.vStr "x"] [("count", .vInt 7)] .raiseError
      (Store.mk [] [(("t", [.vStr "x"]),
        [(0, .create [("id", some (.vStr "x")), ("count", some (.vInt 0))])])]) =
      .error (.uniqueConstraintViolation "t") :=
  ⟨⟨by decide, by decide,
    claim_C4 countTable 1 [.vStr "x"] [("count", .vInt 7)]
      (Store.mk [(("t", [.vStr "x"]),
        [("id", some (.vStr "x")), ("count", some (.vInt 0))])] [])
      [("id", some (.vStr "x")), ("count", some (.vInt 0))]
      (by decide) (by decide)⟩,
    by decide⟩

/-- C5: a create that collides with an existing key under
`onConflictDoNothing` is a no-op — it does not raise, it returns the
pre-existing materialized row, and the store is returned unchanged. -/
theorem claim_C5 (ts : TableSchema) (blk : Nat) (key : List Value)
    (data : List (String × Value)) (s : Store) (r : Row)
    (hk : key.length = ts.pk.length)
    (hm : materialize s (ts.name, key.map encodeValue) = some r) :
    createOp ts blk key data .doNothing s = .ok (r, s) := by
  simp [createOp, if_pos hk, hm]

/-- C5 witness: a colliding create with `onConflictDoNothing` returns the
pre-existing row and the untouched store. -/
theorem claim_C5_witness :
    ([Value.vStr "x"].length = countTable.pk.length ∧
      materialize (Store.mk [(("t", [.vStr "x"]),
          [("id", some (.vStr "x")), ("count", some (.vInt 0))])] [])
        ("t", [Value.vStr "x"].map encodeValue) =
        some [("id", some (.vStr "x")), ("count", some (.vInt 0))]) ∧
    createOp countTable 1 [.vStr "x"] [("count", .vInt 7)] .doNothing
      (Store.mk [(("t", [.vStr "x"]),
        [("id", some (.vStr "x")), ("count", some (.vInt 0))])] []) =
      .ok ([("id", some (.vStr "x")), ("count", some (.vInt 0))],
        Store.mk [(("t", [.vStr "x"]),
          [("id", some (.vStr "x")), ("count", some (.vInt 0))])] []) :=
  ⟨⟨by decide, by decide⟩,
    claim_C5 countTable 1 [.vStr "x"] [("count", .vInt 7)]
      (Store.mk [(("t", [.vStr "x"]),
        [("id", some (.vStr "x")), ("count", some (.vInt 0))])] [])
      [("id", some (.vStr "x")), ("count", some (.vInt 0))]
      (by decide) (by decide)⟩

/-- C6: a colliding create under `onConflictDoUpdate` computes the patch
from the existing materialized row and applies it exactly as the update
operation would, instead of failing; two creates of id x in one cycle with
a count-incrementing conflict handler leave the materialized count
incremented exactly once for the one duplicate call. -/
theorem claim_C6 :
    (∀ (ts : TableSchema) (blk : Nat) (key : List Value)
        (data : List (String × Value)) (f : Row → Patch) (s : Store) (r : Row),
      key.length = ts.pk.length →
      materialize s (ts.name, key.map encodeValue) = some r →
      createOp ts blk key data (.doUpdate f) s = updateOp ts blk key (f r) s)
    ∧ materialize doubleCreateStore ("t", [.vStr "x"]) =
        some [("id", some (.vStr "x")), ("count", some (.vInt 1))] := by
  refine ⟨?_, by decide⟩
  intro ts blk key data f s r hk hm
  simp [createOp, updateOp, if_pos hk, hm]

/-- C6 witness: applying the general collision rule at a concrete colliding
create with a count-incrementing handler. -/
theorem claim_C6_witness :
    ([Value.vStr "x"].length = countTable.pk.length ∧
      materialize (Store.mk [(("t", [.vStr "x"]),
          [("id", some (.vStr "x")), ("count", some (.vInt 0))])] [])
        ("t", [Value.vStr "x"].map encodeValue) =
        some [("id", some (.vStr "x")), ("count", some (.vInt 0))]) ∧
    createOp countTable 1 [.vStr "x"] [("count", .vInt 0)]
      (.doUpdate (fun row => [("count", some (.vInt (getIntAt row "count" + 1)))]))
      (Store.mk [(("t", [.vStr "x"]),
        [("id", some (.vStr "x")), ("count", some (.vInt 0))])] []) =
    updateOp countTable 1 [.vStr "x"]
      [("count", some (.vInt (getIntAt
        [("id", some (.vStr "x")), ("count", some (.vInt 0))] "count" + 1)))]
      (Store.mk [(("t", [.vStr "x"]),
        [("id", some (.vStr "x")), ("count", some (.vInt 0))])] []) :=
  ⟨⟨by decide, by decide⟩,
    claim_C6.1 countTable 1 [.vStr "x"] [("count", .vInt 0)]
      (fun row => [("count", some (.vInt (getIntAt row "count" + 1)))])
      (Store.mk [(("t", [.vStr "x"]),
        [("id", some (.vStr "x")), ("count", some (.vInt 0))])] [])
      [("id", some (.vStr "x")), ("count", some (.vInt 0))]
      (by decide) (by decide)⟩

/-- C7: find returns the materialized row (cache pending state overlaid on
the durable baseline) or null; find directly after a create in the same
cycle returns the created row; and a key absent from the cache reads
through to durable storage. -/
theorem claim_C7 :
    (∀ (ts : TableSchema) (key : List Value) (s : Store),
      key.length = ts.pk.length →
      findOp ts key s = .ok (materialize s (ts.name, key.map encodeValue)))
    ∧ (∀ (ts : TableSchema) (blk : Nat) (key : List Value)
        (data : List (String × Value)) (pol : ConflictPolicy) (s : Store)
        (r : Row) (s' : Store),
        createOp ts blk key data pol s = .ok (r, s') →
        findOp ts key s' = .ok (some r))
    ∧ (∀ (ts : TableSchema) (key : List Value) (s : Store),
        key.length = ts.pk.length →
        alookup s.pending (ts.name, key.map encodeValue) = none →
        findOp ts key s = .ok (alookup s.durable (ts.name, key.map encodeValue))) := by
  refine ⟨?_, ?_, ?_⟩
  · intro ts key s hk
    simp [findOp, if_pos hk]
  · intro ts blk key data pol s r s' h
    obtain ⟨hk, hcase⟩ := createOp_ok ts blk key data pol s r s' h
    have hmat : materialize s' (ts.name, key.map encodeValue) = some r := by
      rcases hcase with ⟨hm, hb, rfl⟩ | ⟨ex, hm, hcase⟩
      · unfold materialize
        rw [pendingOpAt_pushStore]
      · rcases hcase with ⟨-, rfl, rfl⟩ | ⟨f, -, hup⟩
        · exact hm
        · obtain ⟨cur, hcur, hr, -, rfl⟩ := applyUpdate_ok _ _ _ _ _ _ _ hup
          rw [hr]
          exact materialize_push s _ blk _ _
    simp [findOp, if_pos hk, hmat]
  · intro ts key s hk hnone
    simp [findOp, if_pos hk, materialize, pendingOpAt, hnone]

/-- C7 witness: find on the kyle store returns the materialized row; find
right after the create returns the created row; find on a cache-empty
store reads the durable row through. -/
theorem claim_C7_witness :
    findOp stringTable [.vStr "kyle"] kyleStore =
      .ok (materialize kyleStore ("table", [Value.vStr "kyle"].map encodeValue)) ∧
    (createOp stringTable 0 [.vStr "kyle"] [] .raiseError emptyStore =
      .ok ([("id", some (.vStr "kyle"))],
        Store.mk [] [(("table", [.vStr "kyle"]),
          [(0, .create [("id", some (.vStr "kyle"))])])]) ∧
     findOp stringTable [.vStr "kyle"]
       (Store.mk [] [(("table", [.vStr "kyle"]),
         [(0, .create [("id", some (.vStr "kyle"))])])]) =
       .ok (some [("id", some (.vStr "kyle"))])) ∧
    findOp stringTable [.vStr "kyle"]
      (Store.mk [(("table", [.vStr "kyle"]), [("id", some (.vStr "kyle"))])] []) =
      .ok (alookup
        (Store.mk [(("table", [.vStr "kyle"]), [("id", some (.vStr "kyle"))])]
          []).durable ("table", [Value.vStr "kyle"].map encodeValue)) :=
  ⟨claim_C7.1 stringTable [.vStr "kyle"] kyleStore (by decide),
   ⟨by decide,
    claim_C7.2.1 stringTable 0 [.vStr "kyle"] [] .raiseError emptyStore
      [("id", some (.vStr "kyle"))]
      (Store.mk [] [(("table", [.vStr "kyle"]),
        [(0, .create [("id", some (.vStr "kyle"))])])])
      (by decide)⟩,
   claim_C7.2.2 stringTable [.vStr "kyle"]
     (Store.mk [(("table", [.vStr "kyle"]), [("id", some (.vStr "kyle"))])] [])
     (by decide) (by decide)⟩

end PonderStore

namespace PonderStore

theorem colValue_error (tname : String) (pkAssoc : List (String × Value))
    (data : List (String × Value)) (c : Column) (e : StoreError)
    (h : colValue tname pkAssoc data c = .error e) :
    e = .notNullViolation tname c.name := by
  simp only [colValue] at h
  match h1 : alookup pkAssoc c.name with
  | some kv => simp only [h1] at h; exact (Except.noConfusion h)
  | none =>
    simp only [h1] at h
    match h2 : alookup data c.name with
    | some v => simp only [h2] at h; exact (Except.noConfusion h)
    | none =>
      simp only [h2] at h
      match h3 : c.dflt with
      | some d => simp only [h3] at h; exact (Except.noConfusion h)
      | none =>
        simp only [h3] at h
        by_cases h4 : c.nullable = true
        · rw [if_pos h4] at h; exact (Except.noConfusion h)
        · rw [if_neg h4] at h
          exact (Except.error.inj h).symm

theorem buildCols_error_of_missing (tname : String)
    (pkAssoc : List (String × Value)) (data : List (String × Value))
    (cols : List Column) (c : Column) (hc : c ∈ cols)
    (hnn : c.nullable = false) (hd : c.dflt = none)
    (hpk : alookup pkAssoc c.name = none)
    (hdata : alookup data c.name = none) :
    ∃ col, buildCols tname pkAssoc data cols =
      .error (.notNullViolation tname col) := by
  induction cols with
  | nil => cases hc
  | cons c0 rest ih =>
    rcases List.mem_cons.mp hc with rfl | hc'
    · refine ⟨c.name, ?_⟩
      simp [buildCols, colValue, hpk, hdata, hd, hnn]
    · match hcv : colValue tname pkAssoc data c0 with
      | .error e =>
        refine ⟨c0.name, ?_⟩
        have he := colValue_error tname pkAssoc data c0 e hcv
        simp [buildCols, hcv, he]
      | .ok v =>
        obtain ⟨col, hcol⟩ := ih hc'
        refine ⟨col, ?_⟩
        simp [buildCols, hcv, hcol]

theorem validateRow_error_of (tname : String) (cols : List Column) (r : Row)
    (c : Column) (hc : c ∈ cols) (hnn : c.nullable = false)
    (hval : ∀ v, alookup r c.name ≠ some (some v)) :
    ∃ col, validateRow tname cols r =
      .error (.notNullViolation tname col) := by
  induction cols with
  | nil => cases hc
  | cons c0 rest ih =>
    rcases List.mem_cons.mp hc with rfl | hc'
    · refine ⟨c.name, ?_⟩
      match hv : alookup r c.name with
      | some (some v) => exact absurd hv (hval v)
      | some none => simp [validateRow, hnn, hv]
      | none => simp [validateRow, hnn, hv]
    · cases hcn : c0.nullable with
      | true =>
        obtain ⟨col, hcol⟩ := ih hc'
        exact ⟨col, by simp [validateRow, hcn, hcol]⟩
      | false =>
        match hv : alookup r c0.name with
        | some (some v) =>
          obtain ⟨col, hcol⟩ := ih hc'
          exact ⟨col, by simp [validateRow, hcn, hv, hcol]⟩
        | some none => exact ⟨c0.name, by simp [validateRow, hcn, hv]⟩
        | none => exact ⟨c0.name, by simp [validateRow, hcn, hv]⟩

theorem alookup_mergeRow_null (cur : Row) (p : Patch) (n : String)
    (hp : alookup p n = some none) :
    alookup (mergeRow cur p) n = none ∨
      alookup (mergeRow cur p) n = some none := by
  induction cur with
  | nil => exact .inl rfl
  | cons x t ih =>
    obtain ⟨nm, v⟩ := x
    by_cases hn : nm = n
    · subst hn
      refine .inr ?_
      simp [mergeRow, hp, alookup]
    · cases halp : alookup p nm with
      | some ov => simpa [mergeRow, alookup, halp, hn] using ih
      | none => simpa [mergeRow, alookup, halp, hn] using ih

/-- C8: every mutation that fails validation does so synchronously and
without effect on the cache: a create with a missing required column (no
value, no default, not nullable) fails with `NotNullViolation`; an update
of a key with no materialized row fails with `RowNotFoundError`; an update
writing NULL into a not-null column fails with `NotNullViolation`; in each
case the store a caller holds afterwards is exactly the prior store. -/
theorem claim_C8 :
    (∀ (ts : TableSchema) (blk : Nat) (key : List Value)
        (data : List (String × Value)) (s : Store) (c : Column),
      key.length = ts.pk.length →
      materialize s (ts.name, key.map encodeValue) = none →
      c ∈ ts.columns → c.nullable = false → c.dflt = none →
      alookup (ts.pk.zip (key.map encodeValue)) c.name = none →
      alookup data c.name = none →
      (∃ col, createOp ts blk key data .raiseError s =
        .error (.notNullViolation ts.name col)) ∧
      createStore ts blk key data .raiseError s = s)
    ∧ (∀ (ts : TableSchema) (blk : Nat) (key : List Value) (p : Patch)
        (s : Store),
      key.length = ts.pk.length →
      materialize s (ts.name, key.map encodeValue) = none →
      updateOp ts blk key p s = .error .rowNotFoundError ∧
      updateStore ts blk key p s = s)
    ∧ (∀ (ts : TableSchema) (blk : Nat) (key : List Value) (p : Patch)
        (s : Store) (c : Column) (cur : Row),
      key.length = ts.pk.length →
      materialize s (ts.name, key.map encodeValue) = some cur →
      c ∈ ts.columns → c.nullable = false →
      alookup p c.name = some none →
      (∃ col, updateOp ts blk key p s =
        .error (.notNullViolation ts.name col)) ∧
      updateStore ts blk key p s = s) := by
  refine ⟨?_, ?_, ?_⟩
  · intro ts blk key data s c hk hm hc hnn hd hpk hdata
    obtain ⟨col, hcol⟩ :=
      buildCols_error_of_missing ts.name (ts.pk.zip (key.map encodeValue))
        data ts.columns c hc hnn hd hpk hdata
    have herr : createOp ts blk key data .raiseError s =
        .error (.notNullViolation ts.name col) := by
      simp [createOp, if_pos hk, hm, hcol]
    exact ⟨⟨col, herr⟩, by simp [createStore, herr]⟩
  · intro ts blk key p s hk hm
    have herr : updateOp ts blk key p s = .error .rowNotFoundError := by
      simp [updateOp, if_pos hk, applyUpdate, hm]
    exact ⟨herr, by simp [updateStore, herr]⟩
  · intro ts blk key p s c cur hk hm hc hnn hp
    have hval : ∀ v, alookup (mergeRow cur p) c.name ≠ some (some v) := by
      intro v hcontra
      rcases alookup_mergeRow_null cur p c.name hp with hnul | hnul <;>
        rw [hnul] at hcontra
      · exact (Option.noConfusion hcontra)
      · exact (Option.noConfusion (Option.some.inj hcontra))
    obtain ⟨col, hcol⟩ :=
      validateRow_error_of ts.name ts.columns (mergeRow cur p) c hc hnn hval
    have herr : updateOp ts blk key p s =
        .error (.notNullViolation ts.name col) := by
      simp [updateOp, if_pos hk, applyUpdate, hm, hcol]
    exact ⟨⟨col, herr⟩, by simp [updateStore, herr]⟩

/-- C8 witness: a create of id x without the required count errors and
leaves the empty store untouched; an update of an absent key errors and
leaves the store untouched; an update writing NULL into the not-null count
column errors and leaves the prior durable row untouched. -/
theorem claim_C8_witness :
    ((∃ col, createOp countTable 0 [.vStr "x"] [] .raiseError emptyStore =
        .error (.notNullViolation "t" col)) ∧
      createStore countTable 0 [.vStr "x"] [] .raiseError emptyStore =
        emptyStore) ∧
    (updateOp countTable 0 [.vStr "x"] [("count", some (.vInt 3))] emptyStore =
        .error .rowNotFoundError ∧
      updateStore countTable 0 [.vStr "x"] [("count", some (.vInt 3))]
        emptyStore = emptyStore) ∧
    ((∃ col, updateOp countTable 1 [.vStr "x"] [("count", none)]
        (Store.mk [(("t", [.vStr "x"]),
          [("id", some (.vStr "x")), ("count", some (.vInt 0))])] []) =
        .error (.notNullViolation "t" col)) ∧
      updateStore countTable 1 [.vStr "x"] [("count", none)]
        (Store.mk [(("t", [.vStr "x"]),
          [("id", some (.vStr "x")), ("count", some (.vInt 0))])] []) =
        Store.mk [(("t", [.vStr "x"]),
          [("id", some (.vStr "x")), ("count", some (.vInt 0))])] []) :=
  ⟨claim_C8.1 countTable 0 [.vStr "x"] [] emptyStore
      { name := "count", kind := .kInt, nullable := false, dflt := none }
      (by decide) (by decide) (by decide) (by decide) (by decide) (by decide)
      (by decide),
   claim_C8.2.1 countTable 0 [.vStr "x"] [("count", some (.vInt 3))]
      emptyStore (by decide) (by decide),
   claim_C8.2.2 countTable 1 [.vStr "x"] [("count", none)]
      (Store.mk [(("t", [.vStr "x"]),
        [("id", some (.vStr "x")), ("count", some (.vInt 0))])] [])
      { name := "count", kind := .kInt, nullable := false, dflt := none }
      [("id", some (.vStr "x")), ("count", some (.vInt 0))]
      (by decide) (by decide) (by decide) (by decide) (by decide)⟩

end PonderStore

namespace PonderStore

/-- C9: hex values are stored in canonical zero-padded even-length form —
creating a row with hex id 0x1 returns and, after a flush, durably stores a
row whose id reads back as 0x01; in the join scenario the flushed nft owner
column and account id column hold the identical normalized hex value, so a
join on the two hex columns matches. -/
theorem claim_C9 :
    (createOp hexTable 0 [.vHex "0x1"] [] .raiseError emptyStore).map Prod.fst =
      .ok [("id", some (.vHex "0x01"))] ∧
    alookup (flushStore hexStore).durable ("table", [.vHex "0x01"]) =
      some [("id", some (.vHex "0x01"))] ∧
    alookup (flushStore joinStore).durable ("account", [.vHex "0x01"]) =
      some [("id", some (.vHex "0x01")), ("name", some (.vStr "kyle")),
        ("age", some (.vInt 52))] ∧
    alookup (flushStore joinStore).durable ("nft", [.vBigInt 10]) =
      some [("id", some (.vBigInt 10)), ("owner", some (.vHex "0x01"))] ∧
    (alookup (flushStore joinStore).durable ("nft", [.vBigInt 10])).bind
        (fun r => alookup r "owner") =
      (alookup (flushStore joinStore).durable ("account", [.vHex "0x01"])).bind
        (fun r => alookup r "id") :=
  ⟨by decide, by decide, by decide, by decide, by decide⟩

theorem encodeValueList_strVL (l : List String) :
    encodeValueList (strVL l) = strVL l := by
  induction l with
  | nil => rfl
  | cons s t ih => simp [strVL, encodeValueList, encodeValue, ih]

/-- C10: for bigint, JSON, enum and list column values, create-then-flush-
then-read from durable storage returns exactly the value written: flush
followed by a read is the identity on these column kinds. -/
theorem claim_C10 (i : Int) (j : Json) (e : String) (l : List String) :
    bigintFlushRead i = some [("id", some (.vBigInt i))] ∧
    jsonFlushRead j = some [("id", some (.vStr "1")), ("json", some (.vJson j))] ∧
    enumFlushRead e = some [("id", some (.vStr "1")), ("en", some (.vEnum e))] ∧
    listFlushRead l =
      some [("id", some (.vStr "1")), ("list", some (.vList (strVL l)))] := by
  refine ⟨?_, ?_, ?_, ?_⟩
  · simp [bigintFlushRead, bigintTable, createStore, createOp, buildCols, colValue,
      materialize, pendingOpAt, alookup, flushStore, applyPendingEntry,
      histOp, encodeValue, pushStore, pushPending, emptyStore]
  · simp [jsonFlushRead, jsonTable, createStore, createOp, buildCols, colValue,
      materialize, pendingOpAt, alookup, flushStore, applyPendingEntry,
      histOp, encodeValue, pushStore, pushPending, emptyStore]
  · simp [enumFlushRead, enumTable, createStore, createOp, buildCols, colValue,
      materialize, pendingOpAt, alookup, flushStore, applyPendingEntry,
      histOp, encodeValue, pushStore, pushPending, emptyStore]
  · simp [listFlushRead, listTable, createStore, createOp, buildCols, colValue,
      materialize, pendingOpAt, alookup, flushStore, applyPendingEntry,
      histOp, encodeValue, pushStore, pushPending, emptyStore,
      encodeValueList_strVL]

/-- C10 witness: the four runtime test payloads — the bigint 1, the JSON
object mapping prop to 52, the enum value hi, and the string list of big
and dog — read back unchanged from durable storage after a flush. -/
theorem claim_C10_witness :
    bigintFlushRead 1 = some [("id", some (.vBigInt 1))] ∧
    jsonFlushRead (.jobj (.cons "prop" (.jnum 52) .nil)) =
      some [("id", some (.vStr "1")),
        ("json", some (.vJson (.jobj (.cons "prop" (.jnum 52) .nil))))] ∧
    enumFlushRead "hi" =
      some [("id", some (.vStr "1")), ("en", some (.vEnum "hi"))] ∧
    listFlushRead ["big", "dog"] =
      some [("id", some (.vStr "1")),
        ("list", some (.vList (strVL ["big", "dog"])))] :=
  claim_C10 1 (.jobj (.cons "prop" (.jnum 52) .nil)) "hi" ["big", "dog"]

end PonderStore
